import Mathlib

/-!
Verification of the sound-wave factory (solution_script.py).

The embedding models the numeric core over exact rationals (scalar
parameters, timelines) and real numbers (signal samples, where the source
applies `np.sin`).  Python floats are idealized as exact rationals; `int()`
truncation toward zero is `pyInt`; numpy arrays are Lean lists.  Fallible
operations (dict lookup raising KeyError, `float()` raising ValueError,
`np.linspace`/`np.zeros` with a negative count, out-of-range indexed
assignment) return `Except Err`.
-/

namespace SoundFactory

/-- Module constant `SAMPLING_RATE = 44100`. -/
def SAMPLING_RATE : ℕ := 44100

/-- Module constant `DURATION_SECONDS = 5`. -/
def DURATION_SECONDS : ℕ := 5

/-- Module constant `SOUND_ARRAY_LEN = SAMPLING_RATE * DURATION_SECONDS`. -/
def SOUND_ARRAY_LEN : ℕ := SAMPLING_RATE * DURATION_SECONDS

/-- Module constant `MAX_AMPLITUDE = 2 ** 13`. -/
def MAX_AMPLITUDE : ℚ := 2 ^ 13

/-- The fixed `NOTES` dictionary, note name to frequency in Hz, transcribed
entry by entry from the source (octaves 0-7 plus the rest entry `'0'`). -/
def NOTES : List (String × ℚ) := [
  ("0", 0), ("e0", 20.60172), ("f0", 21.82676), ("f#0", 23.12465), ("g0", 24.49971),
  ("g#0", 25.95654), ("a0", 27.50000), ("a#0", 29.13524),
  ("b0", 30.86771), ("c0", 32.70320), ("c#0", 34.64783), ("d0", 36.70810), ("d#0", 38.89087),
  ("e1", 41.20344), ("f1", 43.65353), ("f#1", 46.24930), ("g1", 48.99943),
  ("g#1", 51.91309), ("a1", 55.00000), ("a#1", 58.27047),
  ("b1", 61.73541), ("c1", 65.40639), ("c#1", 69.29566), ("d1", 73.41619), ("d#1", 77.78175),
  ("e2", 82.40689), ("f2", 87.30706), ("f#2", 92.49861), ("g2", 97.99886),
  ("g#2", 103.8262), ("a2", 110.0000), ("a#2", 116.5409),
  ("b2", 123.4708), ("c2", 130.8128), ("c#2", 138.5913), ("d2", 146.8324), ("d#2", 155.5635),
  ("e3", 164.8138), ("f3", 174.6141), ("f#3", 184.9972), ("g3", 195.9977),
  ("g#3", 207.6523), ("a3", 220.0000), ("a#3", 233.0819),
  ("b3", 246.9417), ("c3", 261.6256), ("c#3", 277.1826), ("d3", 293.6648), ("d#3", 311.1270),
  ("e4", 329.6276), ("f4", 349.2282), ("f#4", 369.9944), ("g4", 391.9954),
  ("g#4", 415.3047), ("a4", 440.0000), ("a#4", 466.1638),
  ("b4", 493.8833), ("c4", 523.2511), ("c#4", 554.3653), ("d4", 587.3295), ("d#4", 622.2540),
  ("e5", 659.2551), ("f5", 698.4565), ("f#5", 739.9888), ("g5", 783.9909),
  ("g#5", 830.6094), ("a5", 880.0000), ("a#5", 932.3275),
  ("b5", 987.7666), ("c5", 1046.502), ("c#5", 1108.731), ("d5", 1174.659), ("d#5", 1244.508),
  ("e6", 1318.510), ("f6", 1396.913), ("f#6", 1479.978), ("g6", 1567.982),
  ("g#6", 1661.219), ("a6", 1760.000), ("a#6", 1864.655),
  ("b6", 1975.533), ("c6", 2093.005), ("c#6", 2217.461), ("d6", 2349.318), ("d#6", 2489.016),
  ("e7", 2637.020), ("f7", 2793.826), ("f#7", 2959.955), ("g7", 3135.963),
  ("g#7", 3322.438), ("a7", 3520.000), ("a#7", 3729.310),
  ("b7", 3951.066), ("c7", 4186.009), ("c#7", 4434.922), ("d7", 4698.636), ("d#7", 4978.032)]

/-- Python `int(x)` applied to an exact rational: truncation toward zero. -/
def pyInt (q : ℚ) : ℤ := q.num.tdiv q.den

theorem pyInt_eq_floor {q : ℚ} (h : 0 ≤ q) : pyInt q = ⌊q⌋ := by
  rw [Rat.floor_def, pyInt]
  exact Int.tdiv_eq_ediv (Rat.num_nonneg.2 h) (Int.ofNat_nonneg q.den)

theorem pyInt_nonneg {q : ℚ} (h : 0 ≤ q) : 0 ≤ pyInt q :=
  Int.tdiv_nonneg (Rat.num_nonneg.2 h) (Int.ofNat_nonneg q.den)

/-- `np.linspace(0, d, num = n, endpoint = False)`: `n` samples `i * (d / n)`
(numpy computes the step `d / n` and the i-th value `0 + i * step`). -/
def linspaceEF (d : ℚ) (n : ℕ) : List ℚ :=
  (List.range n).map (fun i : ℕ => (i : ℚ) * (d / n))

/-- The process-wide default timeline
`np.linspace(0, DURATION_SECONDS, num = SOUND_ARRAY_LEN)`: endpoint
INCLUSIVE, so the step is `DURATION_SECONDS / (SOUND_ARRAY_LEN - 1)`. -/
def common_timeline : List ℚ :=
  (List.range SOUND_ARRAY_LEN).map
    (fun i : ℕ => (i : ℚ) * ((DURATION_SECONDS : ℚ) / ((SOUND_ARRAY_LEN : ℚ) - 1)))

/-- `int(rate * q)` computed on the unreduced fraction
`(rate * q.num) / q.den`: truncation toward zero depends only on the value
of the fraction, so this equals `pyInt ((rate : ℚ) * q)` — proved below in
`pyIntTimes_eq` — while staying kernel-computable. -/
def pyIntTimes (rate : ℕ) (q : ℚ) : ℤ :=
  ((rate : ℤ) * q.num).tdiv q.den

theorem pyInt_cases (q : ℚ) : pyInt q = if 0 ≤ q then ⌊q⌋ else -⌊-q⌋ := by
  by_cases h : 0 ≤ q
  · rw [if_pos h, pyInt_eq_floor h]
  · rw [if_neg h, pyInt]
    have hn : pyInt (-q) = ⌊-q⌋ := pyInt_eq_floor (by linarith [lt_of_not_le h])
    rw [pyInt, Rat.neg_num, Rat.neg_den] at hn
    rw [← hn]
    rw [Int.neg_tdiv]
    ring

theorem pyIntTimes_eq (rate : ℕ) (q : ℚ) : pyIntTimes rate q = pyInt ((rate : ℚ) * q) := by
  have hq : ((rate : ℚ) * q) = (((rate : ℤ) * q.num : ℤ) : ℚ) / ((q.den : ℕ) : ℚ) := by
    push_cast
    rw [mul_div_assoc, Rat.num_div_den]
  by_cases h : 0 ≤ (rate : ℚ) * q
  · have hnum : (0 : ℤ) ≤ (rate : ℤ) * q.num := by
      rcases Nat.eq_zero_or_pos rate with h0 | hpos
      · rw [h0]; simp
      · have : (0 : ℚ) ≤ q := by
          by_contra hneg
          have : (rate : ℚ) * q < 0 := mul_neg_of_pos_of_neg (by exact_mod_cast hpos) (lt_of_not_le hneg)
          linarith
        exact mul_nonneg (Int.ofNat_nonneg rate) (Rat.num_nonneg.2 this)
    rw [pyInt_eq_floor h, pyIntTimes,
      Int.tdiv_eq_ediv hnum (Int.ofNat_nonneg q.den), hq,
      Rat.floor_intCast_div_natCast]
  · have hlt : (rate : ℚ) * q < 0 := lt_of_not_le h
    have hratepos : 0 < rate := by
      rcases Nat.eq_zero_or_pos rate with h0 | hpos
      · exfalso; rw [h0] at hlt; simp at hlt
      · exact hpos
    have hqneg : q < 0 := by
      by_contra hge
      have : (0 : ℚ) ≤ (rate : ℚ) * q :=
        mul_nonneg (by positivity) (le_of_not_lt hge)
      linarith
    have hnum : (0 : ℤ) ≤ -((rate : ℤ) * q.num) := by
      have : q.num ≤ 0 := Rat.num_nonpos.2 (le_of_lt hqneg)
      have := mul_nonpos_of_nonneg_of_nonpos (Int.ofNat_nonneg rate) this
      omega
    rw [pyInt_cases, if_neg h, pyIntTimes]
    have hstep : ((rate : ℤ) * q.num).tdiv q.den = -((-((rate : ℤ) * q.num)).tdiv q.den) := by
      rw [Int.neg_tdiv]; ring
    rw [hstep, Int.tdiv_eq_ediv hnum (Int.ofNat_nonneg q.den)]
    have hneg : -((rate : ℚ) * q) = ((-((rate : ℤ) * q.num) : ℤ) : ℚ) / ((q.den : ℕ) : ℚ) := by
      rw [hq]; push_cast; ring
    rw [hneg, Rat.floor_intCast_div_natCast]

/-- `set_custom_common_timeline`, with the module constant `SAMPLING_RATE`
the source reads exposed as the parameter `rate`:
`sound_array_len = int(SAMPLING_RATE * duration)` then
`np.linspace(0, duration, num = sound_array_len, endpoint = False)`. -/
def set_custom_common_timelineR (rate : ℕ) (duration : ℚ) : List ℚ :=
  linspaceEF duration (pyIntTimes rate duration).toNat

/-- `set_custom_common_timeline` at the module's `SAMPLING_RATE`. -/
def set_custom_common_timeline (duration : ℚ) : List ℚ :=
  set_custom_common_timelineR SAMPLING_RATE duration

/-- C6 counterexample: the note table maps the rest name `"0"` to frequency
`0`, which is not strictly positive, so not every table entry has a strictly
positive frequency. -/
theorem notes_rest_entry_not_positive :
    List.lookup "0" NOTES = some 0 ∧ ¬ (0 : ℚ) < 0 := ⟨rfl, by norm_num⟩

/-- C6 (amended): every note of the fixed table other than the rest marker
`"0"` has a strictly positive frequency, and `"a4"` maps to exactly 440. -/
theorem notes_positive_except_rest :
    (∀ p ∈ NOTES, p.1 ≠ "0" → (0 : ℚ) < p.2) ∧
    List.lookup "a4" NOTES = some 440 := by
  constructor
  · intro p hp hne
    simp only [NOTES, List.mem_cons, List.not_mem_nil, or_false] at hp
    rcases hp with h | hp
    · exact absurd (congrArg Prod.fst h) hne
    · rcases hp with h | h | h | h | h | h | h | h | h | h | h | h | h | h | h | h | h | h |
        h | h | h | h | h | h | h | h | h | h | h | h | h | h | h | h | h | h | h | h | h | h |
        h | h | h | h | h | h | h | h | h | h | h | h | h | h | h | h | h | h | h | h | h | h |
        h | h | h | h | h | h | h | h | h | h | h | h | h | h | h | h | h | h | h | h | h | h |
        h | h | h | h | h | h | h | h | h | h | h | h <;>
      · rw [h]; norm_num
  · have h : List.lookup "a4" NOTES = some (440.0000 : ℚ) := rfl
    rw [h]; norm_num

/-- C6 witness: instantiating the amended claim at the table entry
`("e0", 20.60172)`. -/
theorem notes_positive_except_rest_witness : (0 : ℚ) < 20.60172 :=
  notes_positive_except_rest.1 ("e0", 20.60172)
    (List.mem_cons_of_mem _ (List.mem_cons_self _ _)) (by decide)

theorem linspaceEF_length (d : ℚ) (n : ℕ) : (linspaceEF d n).length = n := by
  unfold linspaceEF; rw [List.length_map, List.length_range]

theorem linspaceEF_getElem? (d : ℚ) {n i : ℕ} (h : i < n) :
    (linspaceEF d n)[i]? = some ((i : ℚ) * (d / n)) := by
  unfold linspaceEF
  rw [List.getElem?_map, List.getElem?_range h, Option.map_some']

theorem linspaceEF_mem {d : ℚ} {n : ℕ} {t : ℚ} :
    t ∈ linspaceEF d n ↔ ∃ i, i < n ∧ t = (i : ℚ) * (d / n) := by
  unfold linspaceEF
  constructor
  · intro ht
    obtain ⟨i, hi, rfl⟩ := List.mem_map.1 ht
    exact ⟨i, List.mem_range.1 hi, rfl⟩
  · rintro ⟨i, hi, rfl⟩
    exact List.mem_map.2 ⟨i, List.mem_range.2 hi, rfl⟩

/-- C8: for a positive duration `d` the explicit timeline generator returns
exactly `floor(d * SAMPLING_RATE)` timestamps `i * (d / N)`, evenly spaced
starting at 0, all below `d`, and two consecutive equal-duration timelines
concatenate into one evenly spaced sequence with no gap or overlap. -/
theorem set_custom_common_timeline_spec (d : ℚ) (hd : 0 < d) :
    (set_custom_common_timeline d).length = (pyIntTimes SAMPLING_RATE d).toNat ∧
    (((pyIntTimes SAMPLING_RATE d).toNat : ℤ) = ⌊d * (SAMPLING_RATE : ℚ)⌋) ∧
    (∀ i, i < (pyIntTimes SAMPLING_RATE d).toNat →
      (set_custom_common_timeline d)[i]? =
        some ((i : ℚ) * (d / ((pyIntTimes SAMPLING_RATE d).toNat : ℚ)))) ∧
    (∀ t ∈ set_custom_common_timeline d, 0 ≤ t ∧ t < d) ∧
    (set_custom_common_timeline d ++ (set_custom_common_timeline d).map (· + d) =
      (List.range (2 * (pyIntTimes SAMPLING_RATE d).toNat)).map
        (fun i : ℕ => (i : ℚ) * (d / ((pyIntTimes SAMPLING_RATE d).toNat : ℚ)))) := by
  have hprod : (0 : ℚ) ≤ (SAMPLING_RATE : ℚ) * d := by positivity
  have hTnn : 0 ≤ pyIntTimes SAMPLING_RATE d := by
    rw [pyIntTimes_eq]; exact pyInt_nonneg hprod
  have hunfold : set_custom_common_timeline d =
      linspaceEF d (pyIntTimes SAMPLING_RATE d).toNat := rfl
  refine ⟨?_, ?_, ?_, ?_, ?_⟩
  · rw [hunfold, linspaceEF_length]
  · rw [Int.toNat_of_nonneg hTnn, pyIntTimes_eq, pyInt_eq_floor hprod, mul_comm]
  · intro i hi
    rw [hunfold, linspaceEF_getElem? d hi]
  · intro t ht
    rw [hunfold] at ht
    obtain ⟨i, hi, rfl⟩ := linspaceEF_mem.1 ht
    have hNpos : 0 < (pyIntTimes SAMPLING_RATE d).toNat := Nat.pos_of_ne_zero (by
      rintro h0; rw [h0] at hi; exact absurd hi (Nat.not_lt_zero i))
    have hNQ : (0 : ℚ) < ((pyIntTimes SAMPLING_RATE d).toNat : ℚ) := by
      exact_mod_cast hNpos
    constructor
    · positivity
    · rw [mul_div_assoc', div_lt_iff₀ hNQ]
      have hiq : (i : ℚ) < ((pyIntTimes SAMPLING_RATE d).toNat : ℚ) := by
        exact_mod_cast hi
      calc (i : ℚ) * d < ((pyIntTimes SAMPLING_RATE d).toNat : ℚ) * d :=
            mul_lt_mul_of_pos_right hiq hd
        _ = d * ((pyIntTimes SAMPLING_RATE d).toNat : ℚ) := mul_comm _ _
  · rw [hunfold]
    by_cases hN0 : (pyIntTimes SAMPLING_RATE d).toNat = 0
    · rw [hN0]; rfl
    · have hNQ : (((pyIntTimes SAMPLING_RATE d).toNat : ℚ)) ≠ 0 := by
        exact_mod_cast hN0
      unfold linspaceEF
      rw [two_mul, List.range_add, List.map_append, List.map_map, List.map_map]
      congr 1
      apply List.map_congr_left
      intro i _
      simp only [Function.comp_apply, Nat.cast_add]
      field_simp
      ring

/-- C8 witness: the timeline specification instantiated at duration 3. -/
theorem set_custom_common_timeline_spec_witness :
    (set_custom_common_timeline 3).length = (pyIntTimes SAMPLING_RATE 3).toNat ∧
    (((pyIntTimes SAMPLING_RATE 3).toNat : ℤ) = ⌊(3 : ℚ) * (SAMPLING_RATE : ℚ)⌋) ∧
    (∀ i, i < (pyIntTimes SAMPLING_RATE 3).toNat →
      (set_custom_common_timeline 3)[i]? =
        some ((i : ℚ) * (3 / ((pyIntTimes SAMPLING_RATE 3).toNat : ℚ)))) ∧
    (∀ t ∈ set_custom_common_timeline 3, 0 ≤ t ∧ t < 3) ∧
    (set_custom_common_timeline 3 ++ (set_custom_common_timeline 3).map (· + 3) =
      (List.range (2 * (pyIntTimes SAMPLING_RATE 3).toNat)).map
        (fun i : ℕ => (i : ℚ) * (3 / ((pyIntTimes SAMPLING_RATE 3).toNat : ℚ)))) :=
  set_custom_common_timeline_spec 3 zero_lt_three

/-- The Python exceptions the modeled code can raise: `KeyError` from a
`NOTES[...]` lookup, `ValueError` from `float(...)`, `np.linspace`/`np.zeros`
with a negative count, `int(nan)` or `np.concatenate([])`, `OverflowError`
from `int(inf)`, and `IndexError` from an out-of-range list write. -/
inductive Err where
  | keyError (note : String)
  | valueError
  | overflowError
  | indexError
deriving DecidableEq

/-- The `SoundWave` class: a note label paired with the sample array. -/
structure SoundWave where
  note_str : String
  sound_wave : List ℝ

/-- `NOTES[note]`: raises `KeyError` when the name is absent. -/
def lookupNote (note : String) : Except Err ℚ :=
  match NOTES.lookup note with
  | some f => .ok f
  | none => .error (.keyError note)

/-- `get_normed_sin`: `max_amplitude * np.sin(2 * np.pi * frequency * timeline)`. -/
noncomputable def get_normed_sin (timeline : List ℚ) (frequency : ℚ) : List ℝ :=
  timeline.map
    (fun t : ℚ => (MAX_AMPLITUDE : ℝ) * Real.sin (2 * Real.pi * (frequency : ℝ) * (t : ℝ)))

/-- `get_soundwave`: `get_normed_sin(timeline, NOTES[note])`. -/
noncomputable def get_soundwave (timeline : List ℚ) (note : String) : Except Err (List ℝ) := do
  let f ← lookupNote note
  pure (get_normed_sin timeline f)

/-- A Python float value as produced by `float(str)`: an exact finite
rational (idealizing the double rounding), a signed infinity, or a NaN. -/
inductive PyFloat where
  | finite (q : ℚ)
  | inf (neg : Bool)
  | nan
deriving DecidableEq

/-- Python's whitespace for `str.split`, `\S` and `float()` stripping
(ASCII subset: space, tab, newline, carriage return, vertical tab, form
feed; the rarely used extra Unicode spaces are out of scope). -/
def pySpaceB (c : Char) : Bool :=
  c = ' ' || c = '\t' || c = '\n' || c = '\r' || c = '\x0b' || c = '\x0c'

/-- Longest prefix of non-whitespace characters and the rest (the regex
`\S+` starting at the head). -/
def spanNonSpace : List Char → List Char × List Char
  | [] => ([], [])
  | c :: cs =>
    if pySpaceB c then ([], c :: cs)
    else
      let p := spanNonSpace cs
      (c :: p.1, p.2)

/-- Scan for the first `)` (the non-greedy `\(.*?\)` body): `.` does not
match a newline, so a newline before any `)` makes the alternative fail. -/
def takeUntilClose : List Char → Option (List Char × List Char)
  | [] => none
  | c :: cs =>
    if c = ')' then some ([], cs)
    else if c = '\n' then none
    else (takeUntilClose cs).map (fun p => (c :: p.1, p.2))

/-- One left-to-right scan of `re.findall(r'\(.*?\)|\S+', s)`: at each
position try the parenthesized alternative first, else a maximal
non-whitespace run.  The fuel argument only bounds the recursion; any fuel
of at least the list length gives the regex semantics. -/
def findTokensAux : ℕ → List Char → List (List Char)
  | 0, _ => []
  | _, [] => []
  | fuel + 1, c :: cs =>
    if pySpaceB c then findTokensAux fuel cs
    else if c = '(' then
      match takeUntilClose cs with
      | some p => ('(' :: (p.1 ++ [')'])) :: findTokensAux fuel p.2
      | none =>
        let p := spanNonSpace (c :: cs)
        p.1 :: findTokensAux fuel p.2
    else
      let p := spanNonSpace (c :: cs)
      p.1 :: findTokensAux fuel p.2

/-- `re.findall(r'\(.*?\)|\S+', s)` on a character list. -/
def findTokens (l : List Char) : List (List Char) :=
  findTokensAux l.length l

/-- `str.split()` with no separator: whitespace-separated runs, no empties. -/
def pySplitAux : ℕ → List Char → List (List Char)
  | 0, _ => []
  | _, [] => []
  | fuel + 1, c :: cs =>
    if pySpaceB c then pySplitAux fuel cs
    else
      let p := spanNonSpace (c :: cs)
      p.1 :: pySplitAux fuel p.2

/-- `str.split()` on a character list. -/
def pySplit (l : List Char) : List (List Char) :=
  pySplitAux l.length l

/-- Digit-part continuation for the `float()` grammar: further digits with
single underscores allowed between digits (PEP 515). Returns the collected
digits and the unconsumed rest. -/
def digitsAux : List Char → List Char × List Char
  | '_' :: c :: cs =>
    if c.isDigit then
      let p := digitsAux cs
      (c :: p.1, p.2)
    else ([], '_' :: c :: cs)
  | c :: cs =>
    if c.isDigit then
      let p := digitsAux cs
      (c :: p.1, p.2)
    else ([], c :: cs)
  | [] => ([], [])

/-- A digit part of the `float()` grammar: at least one digit, then
`digitsAux`. -/
def parseDigitpart (l : List Char) : Option (List Char × List Char) :=
  match l with
  | c :: cs =>
    if c.isDigit then
      let p := digitsAux cs
      some (c :: p.1, p.2)
    else none
  | [] => none

/-- Numeric value of a digit string. -/
def digitsToNat (ds : List Char) : ℕ :=
  ds.foldl (fun a c => 10 * a + (c.toNat - 48)) 0

/-- Mantissa value `intpart.fracpart * 10 ^ exp` as an exact rational,
assembled with integer arithmetic and one `mkRat`. -/
def mantissaVal (ids fds : List Char) (e : ℤ) : ℚ :=
  let m : ℤ := (digitsToNat ids : ℤ) * 10 ^ fds.length + (digitsToNat fds : ℤ)
  if 0 ≤ e then mkRat (m * 10 ^ e.toNat) (10 ^ fds.length)
  else mkRat m (10 ^ fds.length * 10 ^ (-e).toNat)

/-- Exponent digits: a digit part consuming the whole rest. -/
def parseUnsignedExp (l : List Char) : Option ℤ :=
  match parseDigitpart l with
  | some (ds, []) => some (digitsToNat ds : ℤ)
  | _ => none

/-- Optional exponent (`e`/`E`, optional sign, digits) consuming the whole
rest; an empty rest means exponent 0. -/
def parseExponent : List Char → Option ℤ
  | [] => some 0
  | c :: cs =>
    if c = 'e' ∨ c = 'E' then
      match cs with
      | '+' :: cs2 => parseUnsignedExp cs2
      | '-' :: cs2 => (parseUnsignedExp cs2).map (fun e => -e)
      | cs2 => parseUnsignedExp cs2
    else none

/-- The unsigned numeric alternative of the `float()` grammar:
`digits [. [digits]] [exp]` or `. digits [exp]`, consuming the whole input. -/
def parseNumber (l : List Char) : Option ℚ :=
  match l with
  | '.' :: cs =>
    match parseDigitpart cs with
    | some (fds, rest) => (parseExponent rest).map (mantissaVal [] fds)
    | none => none
  | _ =>
    match parseDigitpart l with
    | some (ids, rest) =>
      match rest with
      | '.' :: rest2 =>
        match parseDigitpart rest2 with
        | some (fds, rest3) => (parseExponent rest3).map (mantissaVal ids fds)
        | none => (parseExponent rest2).map (mantissaVal ids [])
      | _ => (parseExponent rest).map (mantissaVal ids [])
    | none => none

/-- Strip leading and trailing whitespace (as `float(str)` does). -/
def stripSpaces (l : List Char) : List Char :=
  ((l.dropWhile pySpaceB).reverse.dropWhile pySpaceB).reverse

/-- Python `float(str)`: strip whitespace, optional sign, then either a
case-insensitive `inf`/`infinity`/`nan` or the numeric grammar; `none`
models `ValueError`. -/
def pyFloatOfChars (l0 : List Char) : Option PyFloat :=
  let l1 := stripSpaces l0
  let sl : Bool × List Char :=
    match l1 with
    | '+' :: cs => (false, cs)
    | '-' :: cs => (true, cs)
    | cs => (false, cs)
  let low := sl.2.map Char.toLower
  if low = ['i', 'n', 'f'] ∨ low = ['i', 'n', 'f', 'i', 'n', 'i', 't', 'y'] then
    some (.inf sl.1)
  else if low = ['n', 'a', 'n'] then some .nan
  else (parseNumber sl.2).map (fun q => .finite (if sl.1 then -q else q))

/-- Duration-token handling `float(tokens[i][:-1])`: last character
stripped, then `float()`; a parse failure is Python's `ValueError`. -/
def parseDurationTok (t : List Char) : Except Err PyFloat :=
  match pyFloatOfChars t.dropLast with
  | some f => .ok f
  | none => .error .valueError

/-- `set_custom_common_timeline` called on a parsed float duration:
`int(nan)` raises `ValueError`, `int(inf)` raises `OverflowError`, and
`np.linspace` with a negative `num` raises `ValueError`. -/
def set_custom_common_timelineF (rate : ℕ) : PyFloat → Except Err (List ℚ)
  | .nan => .error .valueError
  | .inf _ => .error .overflowError
  | .finite q =>
    if pyIntTimes rate q < 0 then .error .valueError
    else .ok (set_custom_common_timelineR rate q)

/-- `create_sound_wave(note_str, duration)`: custom timeline when a
duration is given, else the module-level `common_timeline`; then the
(unused) `frequency = NOTES[note_str]` lookup of line 107, then
`get_soundwave`.  The `rate` parameter stands for the module constant
`SAMPLING_RATE` the source reads. -/
noncomputable def create_sound_waveR (rate : ℕ) (note_str : String)
    (duration : Option PyFloat) : Except Err SoundWave := do
  let timeline ← match duration with
    | some d => set_custom_common_timelineF rate d
    | none => pure common_timeline
  let _ ← lookupNote note_str
  let w ← get_soundwave timeline note_str
  pure ⟨note_str, w⟩

/-- `create_sound_wave` at the module's `SAMPLING_RATE`. -/
noncomputable def create_sound_wave (note_str : String) (duration : Option PyFloat) :
    Except Err SoundWave :=
  create_sound_waveR SAMPLING_RATE note_str duration

/-- `generate_group_wave(notes, duration)`: a zero buffer of length
`int(SAMPLING_RATE * duration)` (negative count: `ValueError`), then for
each note `group_wave += create_sound_wave(note, duration).sound_wave`. -/
noncomputable def generate_group_waveR (rate : ℕ) (notes : List String)
    (duration : PyFloat) : Except Err (List ℝ) :=
  match duration with
  | .nan => .error .valueError
  | .inf _ => .error .overflowError
  | .finite q =>
    if pyIntTimes rate q < 0 then .error .valueError
    else
      notes.foldlM
        (fun acc note => do
          let sw ← create_sound_waveR rate note (some (.finite q))
          pure (List.zipWith (· + ·) acc sw.sound_wave))
        (List.replicate (pyIntTimes rate q).toNat (0 : ℝ))

/-- Token test `token.startswith('(') and token.endswith(')')`. -/
def isGroupTok (t : List Char) : Bool :=
  (match t with | '(' :: _ => true | _ => false) &&
  (match t.getLast? with | some ')' => true | _ => false)

/-- The scanning loop of `read_notes_string`: a note-or-chord token must be
followed by a duration token (`IndexError` if the tokens run out), the
duration token is parsed with `float(tok[:-1])`, and the event's samples
are generated; events are collected in order. -/
noncomputable def read_notes_loopR (rate : ℕ) : List (List Char) → Except Err (List (List ℝ))
  | [] => pure []
  | [_] => .error .indexError
  | tok :: dtok :: rest2 =>
    if isGroupTok tok then do
      let d ← parseDurationTok dtok
      let g ← generate_group_waveR rate
        ((pySplit (tok.dropLast.drop 1)).map (fun l => String.mk l)) d
      let tl ← read_notes_loopR rate rest2
      pure (g :: tl)
    else do
      let d ← parseDurationTok dtok
      let sw ← create_sound_waveR rate (String.mk tok) (some d)
      let tl ← read_notes_loopR rate rest2
      pure (sw.sound_wave :: tl)

/-- `read_notes_string(melody_str)`: tokenize, scan events, then
`np.concatenate(melody_sequence)` (which raises `ValueError` on an empty
sequence). -/
noncomputable def read_notes_stringR (rate : ℕ) (melody_str : String) : Except Err (List ℝ) := do
  let seq ← read_notes_loopR rate (findTokens melody_str.data)
  match seq with
  | [] => .error .valueError
  | _ => pure seq.flatten

/-- `read_notes_string` at the module's `SAMPLING_RATE`. -/
noncomputable def read_notes_string (melody_str : String) : Except Err (List ℝ) :=
  read_notes_stringR SAMPLING_RATE melody_str

/-- `np.max(np.abs(w))`.  The fold seed 0 is absorbed on nonempty arrays
since every `|x| ≥ 0`; `np.max` of an EMPTY array raises, and the claims
below use this only on nonempty arrays. -/
def maxAbs (w : List ℝ) : ℝ :=
  (w.map (fun x => |x|)).foldr max 0

/-- `create_triangular_wave(sine_wave)`:
`normalized = sine_wave / np.max(np.abs(sine_wave))` then
`2 * np.abs(2 * (normalized - np.floor(normalized + 0.5))) - 1`.
On an all-zero input numpy's `0/0` produces NaN values with only a runtime
warning — no exception; over ℝ the division yields 0.  Either way a
full-length array is returned. -/
noncomputable def create_triangular_wave (sine_wave : List ℝ) : List ℝ :=
  sine_wave.map (fun x =>
    2 * |2 * (x / maxAbs sine_wave - ((⌊x / maxAbs sine_wave + 0.5⌋ : ℤ) : ℝ))| - 1)

/-- `create_square_wave(sine_wave)`:
`normalized = sine_wave / np.max(np.abs(sine_wave))` then
`0.5 * (1 + np.sign(normalized))`; same all-zero behavior as the
triangular variant. -/
noncomputable def create_square_wave (sine_wave : List ℝ) : List ℝ :=
  sine_wave.map (fun x => 0.5 * (1 + Real.sign (x / maxAbs sine_wave)))

/-- `convert_wave(sine_wave, wave_type)`: dispatch on the string tag,
`ValueError` for an unsupported tag. -/
noncomputable def convert_wave (sine_wave : List ℝ) (wave_type : String) :
    Except Err (List ℝ) :=
  if wave_type = "triangular" then .ok (create_triangular_wave sine_wave)
  else if wave_type = "square" then .ok (create_square_wave sine_wave)
  else .error .valueError

/-- `normalize_sound_waves(*waves)`: `min_length = min(len(w) for w in waves)`
(`min()` of an empty sequence raises `ValueError`), each wave truncated to
`min_length` and rescaled by `truncated / np.max(np.abs(truncated)) *
max_amplitude`.  A zero `min_length` makes `np.max` raise on the first
processed empty slice; an all-zero truncated wave divides by zero, which
numpy turns into NaN values without an exception (over ℝ the samples
become 0) — in both semantics the peak then differs from the target. -/
noncomputable def normalize_sound_waves (waves : List (List ℝ)) : Except Err (List (List ℝ)) :=
  match waves with
  | [] => .error .valueError
  | w :: ws =>
    let min_length := (ws.map List.length).foldl min w.length
    if min_length = 0 then .error .valueError
    else .ok ((w :: ws).map (fun wave =>
      let truncated := wave.take min_length
      truncated.map (fun x => x / maxAbs truncated * (MAX_AMPLITUDE : ℝ))))

/-- Sequential element writes `l[start + j] = vals[j]` (bounds already
checked by `loopAssign`; `List.set` out of range is unreachable there). -/
def writeSeq : List ℚ → ℕ → List ℚ → List ℚ
  | l, _, [] => l
  | l, s, v :: vs => writeSeq (l.set s v) (s + 1) vs

/-- A Python `for i in range(len(vals)): l[start + i] = vals[i]` loop:
zero iterations touch nothing; otherwise every index written must be in
range or the loop raises `IndexError` (partial writes are discarded with
the raising call's local state). -/
def loopAssign (l : List ℚ) (start : ℕ) (vals : List ℚ) : Except Err (List ℚ) :=
  if vals = [] then .ok l
  else if start + vals.length ≤ l.length then .ok (writeSeq l start vals)
  else .error .indexError

/-- Python slice assignment `l[start:stop] = v` with `0 ≤ start ≤ stop`:
the affected indices are `start ≤ i < min stop (length l)`; an empty or
negative-length range assigns nothing. -/
def setRange : List ℚ → ℕ → ℕ → ℚ → List ℚ
  | [], _, _, _ => []
  | x :: xs, 0, 0, _ => x :: xs
  | _ :: xs, 0, stop + 1, v => v :: setRange xs 0 stop v
  | x :: xs, s + 1, stop, v => x :: setRange xs s (stop - 1) v

/-- The envelope array built by `perform_adsr_mods` for a signal of `n`
samples: `attack_samples = int(attack_time * SAMPLING_RATE)`,
`decay_samples = int(decay_time * SAMPLING_RATE)`,
`sustain_samples = int(n / SAMPLING_RATE - (attack + decay + release))`
(the source's line 163 — SECONDS, not samples),
`release_samples = int(release_time * SAMPLING_RATE)`; a zero array is
then filled by the attack loop, the decay loop, the sustain slice
assignment and the release loop in source order.  The model covers the
regime of non-negative segment counts (the spec's Envelope invariant);
negative Python indices would wrap instead. -/
def adsr_envelope (n : ℕ) (attack_time decay_time sustain_level release_time : ℚ) :
    Except Err (List ℚ) :=
  let A := (pyInt (attack_time * (SAMPLING_RATE : ℚ))).toNat
  let D := (pyInt (decay_time * (SAMPLING_RATE : ℚ))).toNat
  let S := pyInt ((n : ℚ) / (SAMPLING_RATE : ℚ) - (attack_time + decay_time + release_time))
  let R := (pyInt (release_time * (SAMPLING_RATE : ℚ))).toNat
  do
    let e1 ← loopAssign (List.replicate n 0) 0
      ((List.range A).map (fun i : ℕ => (i : ℚ) / (A : ℚ)))
    let e2 ← loopAssign e1 A
      ((List.range D).map (fun i : ℕ => 1 - ((i : ℚ) / (D : ℚ)) * (1 - sustain_level)))
    let e3 := setRange e2 (A + D) ((A + D : ℤ) + S).toNat sustain_level
    let e4 ← loopAssign e3 ((A + D : ℤ) + S).toNat
      ((List.range R).map (fun i : ℕ => sustain_level * (1 - (i : ℚ) / (R : ℚ))))
    pure e4

/-- `perform_adsr_mods(wave, attack, decay, sustain_level, release)`:
build the envelope over the wave's length, then
`modulated_sound = sound_wave * envelope` elementwise. -/
noncomputable def perform_adsr_mods (wave : SoundWave)
    (attack_time decay_time sustain_level release_time : ℚ) : Except Err SoundWave := do
  let env ← adsr_envelope wave.sound_wave.length attack_time decay_time sustain_level
    release_time
  pure ⟨wave.note_str, List.zipWith (fun (x : ℝ) (g : ℚ) => x * (g : ℝ)) wave.sound_wave env⟩

/-- `read_wave_from_txt(filename)`: `note_str = filename[:-4]`, then
`get_soundwave(common_timeline, note_str)` — the function never opens a
file.  Its `except FileNotFoundError` / `except ValueError` arms are dead
code (the body can only raise `KeyError`, which is not caught and
propagates). -/
noncomputable def read_wave_from_txt (filename : String) : Except Err SoundWave := do
  let note_str : String := ⟨filename.data.take (filename.data.length - 4)⟩
  let w ← get_soundwave common_timeline note_str
  pure ⟨note_str, w⟩

/-- C10: `read_wave_from_txt` is a pure function of the filename string:
when the filename minus its last four characters is a note name, the result
is exactly the freshly synthesized sine for that note over the process-wide
default timeline, identical to `create_sound_wave` with no explicit
duration.  No file content is consulted (the model's function has no file
input at all). -/
theorem read_wave_from_txt_pure (filename : String) (q : ℚ)
    (h : List.lookup (⟨filename.data.take (filename.data.length - 4)⟩ : String) NOTES =
      some q) :
    read_wave_from_txt filename =
      .ok ⟨⟨filename.data.take (filename.data.length - 4)⟩,
            get_normed_sin common_timeline q⟩ ∧
    read_wave_from_txt filename =
      create_sound_wave (⟨filename.data.take (filename.data.length - 4)⟩ : String) none := by
  have hl : lookupNote (⟨filename.data.take (filename.data.length - 4)⟩ : String) =
      .ok q := by
    unfold lookupNote; rw [h]
  constructor
  · simp only [read_wave_from_txt, get_soundwave, hl, bind, Except.bind, pure, Except.pure]
  · simp only [read_wave_from_txt, create_sound_wave, create_sound_waveR, get_soundwave,
      hl, bind, Except.bind, pure, Except.pure]

/-- C10 witness: filename `"a4.txt"` strips to `"a4"`, and the result is
the default-timeline sine at 440 Hz. -/
theorem read_wave_from_txt_pure_witness :
    read_wave_from_txt "a4.txt" =
      .ok ⟨⟨"a4.txt".data.take ("a4.txt".data.length - 4)⟩,
            get_normed_sin common_timeline (440.0000 : ℚ)⟩ ∧
    read_wave_from_txt "a4.txt" =
      create_sound_wave (⟨"a4.txt".data.take ("a4.txt".data.length - 4)⟩ : String) none :=
  read_wave_from_txt_pure "a4.txt" (440.0000 : ℚ) rfl

/-- C5: on an all-zero input signal both reshape variants raise nothing:
they return a full-length signal (the triangular variant all `-1`, the
square variant all `1/2` over the real-number idealization of numpy's
NaN), contradicting the claimed DegenerateSignalError. -/
theorem reshape_all_zero_returns_signal :
    create_triangular_wave [0, 0, 0, 0] = [-1, -1, -1, -1] ∧
    create_square_wave [0, 0, 0, 0] = [1 / 2, 1 / 2, 1 / 2, 1 / 2] ∧
    (create_triangular_wave [0, 0, 0, 0]).length = 4 ∧
    (create_square_wave [0, 0, 0, 0]).length = 4 := by
  have hmax : maxAbs [0, 0, 0, 0] = 0 := by
    unfold maxAbs
    norm_num
  have hfloor : (⌊(0.5 : ℝ)⌋ : ℤ) = 0 := by
    rw [show (0.5 : ℝ) = 1 / 2 by norm_num]
    norm_num
  refine ⟨?_, ?_, ?_, ?_⟩
  · unfold create_triangular_wave
    rw [hmax]
    norm_num [hfloor]
  · unfold create_square_wave
    rw [hmax]
    norm_num [Real.sign_zero]
  · unfold create_triangular_wave
    rw [List.length_map]
    rfl
  · unfold create_square_wave
    rw [List.length_map]
    rfl

theorem maxAbs_nil : maxAbs [] = 0 := rfl

theorem maxAbs_cons (x : ℝ) (t : List ℝ) : maxAbs (x :: t) = max |x| (maxAbs t) := rfl

theorem maxAbs_nonneg (t : List ℝ) : 0 ≤ maxAbs t := by
  induction t with
  | nil => exact le_refl 0
  | cons x t ih => rw [maxAbs_cons]; exact le_trans ih (le_max_right _ _)

theorem abs_le_maxAbs {x : ℝ} {t : List ℝ} (h : x ∈ t) : |x| ≤ maxAbs t := by
  induction t with
  | nil => cases h
  | cons y t ih =>
    rw [maxAbs_cons]
    rcases List.mem_cons.1 h with rfl | hmem
    · exact le_max_left _ _
    · exact le_trans (ih hmem) (le_max_right _ _)

theorem maxAbs_pos {t : List ℝ} (h : ∃ x ∈ t, x ≠ 0) : 0 < maxAbs t := by
  obtain ⟨x, hx, hne⟩ := h
  exact lt_of_lt_of_le (abs_pos.2 hne) (abs_le_maxAbs hx)

theorem maxAbs_map_mul (t : List ℝ) {c : ℝ} (hc : 0 ≤ c) :
    maxAbs (t.map (fun x => x * c)) = maxAbs t * c := by
  induction t with
  | nil => rw [List.map_nil, maxAbs_nil, zero_mul]
  | cons x t ih =>
    rw [List.map_cons, maxAbs_cons, maxAbs_cons, ih, abs_mul, abs_of_nonneg hc,
      max_mul_of_nonneg _ _ hc]

/-- C4 counterexample: the very first sample of the square reshape of a
synthesizer sine (duration 0.1 at the module rate) is `1/2`, because the
sine is 0 at time 0 and `np.sign(0) = 0`; so not every square-wave sample
is 0 or 1. -/
theorem square_wave_sample_half :
    (create_square_wave (get_normed_sin (set_custom_common_timeline (1 / 10)) 440))[0]? =
      some (1 / 2) ∧ (1 / 2 : ℝ) ≠ 0 ∧ (1 / 2 : ℝ) ≠ 1 := by
  have hN : pyIntTimes SAMPLING_RATE (1 / 10) = 4410 := by
    have h1 : ((1 : ℚ) / 10).num = 1 := by norm_num
    have h2 : ((1 : ℚ) / 10).den = 10 := by norm_num
    rw [pyIntTimes, h1, h2]
    decide
  have ht0 : (set_custom_common_timeline (1 / 10))[0]? = some 0 := by
    rw [set_custom_common_timeline, set_custom_common_timelineR,
      linspaceEF_getElem? (1 / 10) (by rw [hN]; norm_num)]
    norm_num
  have hw0 : (get_normed_sin (set_custom_common_timeline (1 / 10)) 440)[0]? = some 0 := by
    rw [get_normed_sin, List.getElem?_map, ht0]
    norm_num
  refine ⟨?_, by norm_num, by norm_num⟩
  rw [create_square_wave, List.getElem?_map, hw0]
  norm_num [Real.sign_zero]

/-- C4 (amended): every sample of the square reshape of a synthesizer sine
lies in `{0, 1/2, 1}`; the midlevel `1/2` occurs exactly at samples where
the input sine is zero (`np.sign` maps 0 to 0). -/
theorem square_wave_three_valued (tl : List ℚ) (f : ℚ) :
    ∀ x ∈ create_square_wave (get_normed_sin tl f), x = 0 ∨ x = 1 / 2 ∨ x = 1 := by
  intro x hx
  rw [create_square_wave] at hx
  obtain ⟨y, _, rfl⟩ := List.mem_map.1 hx
  rcases Real.sign_apply_eq (y / maxAbs (get_normed_sin tl f)) with h | h | h <;>
    rw [h] <;> norm_num

/-- C4 witness: the amended claim applied to the one-sample timeline `[0]`
at 440 Hz, whose square reshape is `[0.5]`. -/
theorem square_wave_three_valued_witness :
    (0.5 : ℝ) = 0 ∨ (0.5 : ℝ) = 1 / 2 ∨ (0.5 : ℝ) = 1 :=
  square_wave_three_valued [0] 440 0.5 (by
    simp [create_square_wave, get_normed_sin, maxAbs, Real.sign_zero])

theorem foldl_min_le_init (l : List ℕ) (a : ℕ) : l.foldl min a ≤ a := by
  induction l generalizing a with
  | nil => exact le_refl a
  | cons b l ih =>
    rw [List.foldl_cons]
    exact le_trans (ih (min a b)) (min_le_left a b)

theorem foldl_min_le_mem {l : List ℕ} {x : ℕ} (h : x ∈ l) (a : ℕ) : l.foldl min a ≤ x := by
  induction l generalizing a with
  | nil => cases h
  | cons b l ih =>
    rw [List.foldl_cons]
    rcases List.mem_cons.1 h with rfl | hmem
    · exact le_trans (foldl_min_le_init l (min a x)) (min_le_right a x)
    · exact ih hmem (min a b)

/-- C7 counterexample: `normalize([[0, 1], [5]])` truncates the first wave
to `[0]`, whose peak divisor is 0; the first output is (NaN in numpy, 0
over ℝ) and its peak is 0, not the target amplitude — so nonzero inputs do
not guarantee every output peaks at the target. -/
theorem normalize_peak_counterexample :
    normalize_sound_waves [[0, 1], [5]] = .ok [[0], [(MAX_AMPLITUDE : ℝ)]] ∧
    maxAbs [(0 : ℝ)] = 0 ∧ (0 : ℝ) ≠ (MAX_AMPLITUDE : ℝ) := by
  refine ⟨?_, by norm_num [maxAbs], by norm_num [MAX_AMPLITUDE]⟩
  norm_num [normalize_sound_waves, maxAbs, MAX_AMPLITUDE]

/-- C7 (amended): for a nonempty wave collection whose common (minimum)
length is positive, normalize returns one output per input, every output
has the minimum input length, and every output whose truncated input is
not all-zero has peak absolute value exactly the target amplitude (an
all-zero truncation divides by zero instead: NaN in numpy, peak 0 over ℝ). -/
theorem normalize_sound_waves_spec (w : List ℝ) (ws : List (List ℝ))
    (hmin : 0 < (ws.map List.length).foldl min w.length) :
    ∃ outs, normalize_sound_waves (w :: ws) = .ok outs ∧
      outs.length = (w :: ws).length ∧
      (∀ o ∈ outs, o.length = (ws.map List.length).foldl min w.length) ∧
      (∀ i : ℕ, ∀ v : List ℝ, (w :: ws)[i]? = some v →
        (∃ x ∈ v.take ((ws.map List.length).foldl min w.length), x ≠ 0) →
        ∃ o, outs[i]? = some o ∧ maxAbs o = (MAX_AMPLITUDE : ℝ)) := by
  have hA : (0 : ℝ) ≤ (MAX_AMPLITUDE : ℝ) := by norm_num [MAX_AMPLITUDE]
  set m := (ws.map List.length).foldl min w.length with hm
  refine ⟨(w :: ws).map (fun wave =>
      (wave.take m).map (fun x => x / maxAbs (wave.take m) * (MAX_AMPLITUDE : ℝ))),
      ?_, ?_, ?_, ?_⟩
  · rw [normalize_sound_waves]
    rw [if_neg (Nat.pos_iff_ne_zero.1 hmin)]
  · rw [List.length_map]
  · intro o ho
    obtain ⟨v, hv, rfl⟩ := List.mem_map.1 ho
    rw [List.length_map, List.length_take]
    rcases List.mem_cons.1 hv with rfl | hmem
    · exact Nat.min_eq_left (foldl_min_le_init _ _)
    · exact Nat.min_eq_left
        (foldl_min_le_mem (List.mem_map.2 ⟨v, hmem, rfl⟩) _)
  · intro i v hv hnz
    have hget : ((w :: ws).map (fun wave =>
        (wave.take m).map (fun x => x / maxAbs (wave.take m) * (MAX_AMPLITUDE : ℝ))))[i]? =
        some ((v.take m).map (fun x => x / maxAbs (v.take m) * (MAX_AMPLITUDE : ℝ))) := by
      rw [List.getElem?_map, hv, Option.map_some']
    refine ⟨_, hget, ?_⟩
    have hM : 0 < maxAbs (v.take m) := maxAbs_pos hnz
    have hfun : ∀ x ∈ v.take m,
        x / maxAbs (v.take m) * (MAX_AMPLITUDE : ℝ) =
        x * ((MAX_AMPLITUDE : ℝ) / maxAbs (v.take m)) := by
      intro x _
      ring
    rw [List.map_congr_left hfun, maxAbs_map_mul _ (div_nonneg hA (le_of_lt hM)),
      mul_comm, div_mul_cancel₀ _ (ne_of_gt hM)]

/-- C7 witness: the amended claim applied to the single wave `[1]`. -/
theorem normalize_sound_waves_spec_witness :
    ∃ outs, normalize_sound_waves [[1]] = .ok outs ∧
      outs.length = ([[(1 : ℝ)]] : List (List ℝ)).length ∧
      (∀ o ∈ outs, o.length = (([] : List (List ℝ)).map List.length).foldl min [(1 : ℝ)].length) ∧
      (∀ i : ℕ, ∀ v : List ℝ, ([[(1 : ℝ)]] : List (List ℝ))[i]? = some v →
        (∃ x ∈ v.take ((([] : List (List ℝ)).map List.length).foldl min [(1 : ℝ)].length), x ≠ 0) →
        ∃ o, outs[i]? = some o ∧ maxAbs o = (MAX_AMPLITUDE : ℝ)) :=
  normalize_sound_waves_spec [1] [] (by decide)

theorem lookupNote_a4 : lookupNote "a4" = .ok 440 := by
  have h : lookupNote "a4" = .ok (440.0000 : ℚ) := rfl
  rw [h]
  norm_num

/-- C3: at every sampling rate, the melody sequencer on `"a4 0.1s"` returns
exactly the amplitude-scaled sine at 440 Hz over the endpoint-exclusive
duration-0.1 timeline; it agrees with the direct synthesis path
`create_sound_wave("a4", 0.1)`, and the length is `floor(0.1 * rate)`. -/
theorem melody_single_a4 (rate : ℕ) :
    read_notes_stringR rate "a4 0.1s" =
      .ok (get_normed_sin (set_custom_common_timelineR rate (1 / 10)) 440) ∧
    read_notes_stringR rate "a4 0.1s" =
      (create_sound_waveR rate "a4" (some (.finite (1 / 10)))).map SoundWave.sound_wave ∧
    (get_normed_sin (set_custom_common_timelineR rate (1 / 10)) 440).length =
      (⌊(1 / 10 : ℚ) * (rate : ℚ)⌋).toNat := by
  have htok : findTokens ("a4 0.1s").data = [['a', '4'], ['0', '.', '1', 's']] := by decide
  have hmk : (mkRat 1 10 : ℚ) = 1 / 10 := by
    rw [Rat.mkRat_eq_divInt, Rat.divInt_eq_div]
    norm_num
  have hdur : parseDurationTok ['0', '.', '1', 's'] = .ok (.finite (1 / 10)) := by
    have h0 : parseDurationTok ['0', '.', '1', 's'] = .ok (.finite (mkRat 1 10)) := rfl
    rw [h0, hmk]
  have hg : isGroupTok ['a', '4'] = false := by decide
  have hnn : ¬ pyIntTimes rate (1 / 10) < 0 := by
    rw [pyIntTimes_eq]
    exact not_lt.2 (pyInt_nonneg (by positivity))
  have hcreate : create_sound_waveR rate "a4" (some (.finite (1 / 10))) =
      .ok ⟨"a4", get_normed_sin (set_custom_common_timelineR rate (1 / 10)) 440⟩ := by
    simp only [create_sound_waveR, set_custom_common_timelineF, if_neg hnn,
      get_soundwave, lookupNote_a4, bind, Except.bind, pure, Except.pure]
  have hmkstr : String.mk ['a', '4'] = "a4" := rfl
  have hloop : read_notes_loopR rate [['a', '4'], ['0', '.', '1', 's']] =
      .ok [get_normed_sin (set_custom_common_timelineR rate (1 / 10)) 440] := by
    simp only [read_notes_loopR, hg, Bool.false_eq_true, if_false, hdur, hmkstr,
      hcreate, bind, Except.bind, pure, Except.pure]
  have hread : read_notes_stringR rate "a4 0.1s" =
      .ok (get_normed_sin (set_custom_common_timelineR rate (1 / 10)) 440) := by
    unfold read_notes_stringR
    rw [htok, hloop]
    simp only [bind, Except.bind, pure, Except.pure, List.flatten_cons, List.flatten_nil,
      List.append_nil]
  refine ⟨hread, ?_, ?_⟩
  · rw [hread, hcreate]
    rfl
  · rw [get_normed_sin, List.length_map, set_custom_common_timelineR, linspaceEF_length,
      pyIntTimes_eq, pyInt_eq_floor (by positivity), mul_comm]

/-- Position `k` (0-based count of note/chord events) is malformed in the
token list: the event token exists but either no duration token follows it,
or the duration token (with its last character stripped) fails to parse as
a Python float. -/
def badPairAt (toks : List (List Char)) (k : ℕ) : Prop :=
  2 * k < toks.length ∧
  (toks.length = 2 * k + 1 ∨
    ∃ dtok : List Char, toks[2 * k + 1]? = some dtok ∧ pyFloatOfChars dtok.dropLast = none)

/-- The event at tokens `(tok, dtok)` processes without an exception:
its duration parses, and its group or single-note synthesis succeeds. -/
def eventOk (rate : ℕ) (tok dtok : List Char) : Prop :=
  ∃ f, parseDurationTok dtok = .ok f ∧
    (if isGroupTok tok then
      ∃ g, generate_group_waveR rate
        ((pySplit (tok.dropLast.drop 1)).map (fun l => String.mk l)) f = .ok g
    else
      ∃ sw, create_sound_waveR rate (String.mk tok) (some f) = .ok sw)

/-- Every event strictly before position `k` processes without an
exception. -/
def goodPrefix (rate : ℕ) (toks : List (List Char)) (k : ℕ) : Prop :=
  ∀ j < k, ∃ t d : List Char, toks[2 * j]? = some t ∧ toks[2 * j + 1]? = some d ∧
    eventOk rate t d

theorem badPairAt_shift {t d : List Char} {r : List (List Char)} {k : ℕ}
    (h : badPairAt (t :: d :: r) (k + 1)) : badPairAt r k := by
  obtain ⟨hlt, hrest⟩ := h
  refine ⟨?_, ?_⟩
  · simp only [List.length_cons] at hlt ⊢
    omega
  · rcases hrest with hlen | ⟨dtok, hget, hparse⟩
    · left
      simp only [List.length_cons] at hlen ⊢
      omega
    · right
      refine ⟨dtok, ?_, hparse⟩
      have : (2 * (k + 1) + 1) = (2 * k + 1) + 1 + 1 := by omega
      rw [this] at hget
      rwa [List.getElem?_cons_succ, List.getElem?_cons_succ] at hget

theorem goodPrefix_shift {rate : ℕ} {t d : List Char} {r : List (List Char)} {k : ℕ}
    (h : goodPrefix rate (t :: d :: r) (k + 1)) : goodPrefix rate r k := by
  intro j hj
  obtain ⟨t', d', hgt, hgd, hok⟩ := h (j + 1) (by omega)
  refine ⟨t', d', ?_, ?_, hok⟩
  · have : 2 * (j + 1) = (2 * j) + 1 + 1 := by omega
    rw [this] at hgt
    rwa [List.getElem?_cons_succ, List.getElem?_cons_succ] at hgt
  · have : 2 * (j + 1) + 1 = (2 * j + 1) + 1 + 1 := by omega
    rw [this] at hgd
    rwa [List.getElem?_cons_succ, List.getElem?_cons_succ] at hgd

theorem parseDurationTok_error {d : List Char} (h : pyFloatOfChars d.dropLast = none) :
    parseDurationTok d = .error .valueError := by
  unfold parseDurationTok
  rw [h]

theorem read_notes_loopR_error_of_bad (rate : ℕ) :
    ∀ (k : ℕ) (toks : List (List Char)), badPairAt toks k →
      ∃ e, read_notes_loopR rate toks = .error e := by
  intro k
  induction k with
  | zero =>
    intro toks hbad
    match toks with
    | [] => exact absurd hbad.1 (by simp)
    | [t] => exact ⟨.indexError, rfl⟩
    | t :: d :: r =>
      obtain ⟨-, hrest⟩ := hbad
      rcases hrest with hlen | ⟨dtok, hget, hparse⟩
      · exact absurd hlen (by simp only [List.length_cons]; omega)
      · have hd : d = dtok := by
          rw [show 2 * 0 + 1 = 0 + 1 from rfl, List.getElem?_cons_succ,
            List.getElem?_cons_zero] at hget
          exact Option.some_injective _ hget
        rw [← hd] at hparse
        have hpd : parseDurationTok d = .error .valueError := parseDurationTok_error hparse
        refine ⟨.valueError, ?_⟩
        cases hgt : isGroupTok t <;>
          simp only [read_notes_loopR, hgt, Bool.false_eq_true, if_false, if_true, hpd,
            bind, Except.bind]
  | succ k ih =>
    intro toks hbad
    match toks with
    | [] => exact absurd hbad.1 (by simp)
    | [t] => exact ⟨.indexError, rfl⟩
    | t :: d :: r =>
      obtain ⟨e, he⟩ := ih r (badPairAt_shift hbad)
      cases hgt : isGroupTok t
      · cases hpd : parseDurationTok d with
        | error e' =>
          exact ⟨e', by
            simp only [read_notes_loopR, hgt, Bool.false_eq_true, if_false, hpd,
              bind, Except.bind]⟩
        | ok f =>
          cases hsw : create_sound_waveR rate (String.mk t) (some f) with
          | error e' =>
            exact ⟨e', by
              simp only [read_notes_loopR, hgt, Bool.false_eq_true, if_false, hpd, hsw,
                bind, Except.bind]⟩
          | ok sw =>
            exact ⟨e, by
              simp only [read_notes_loopR, hgt, Bool.false_eq_true, if_false, hpd, hsw, he,
                bind, Except.bind]⟩
      · cases hpd : parseDurationTok d with
        | error e' =>
          exact ⟨e', by
            simp only [read_notes_loopR, hgt, if_true, hpd, bind, Except.bind]⟩
        | ok f =>
          cases hg : generate_group_waveR rate
              ((pySplit (t.dropLast.drop 1)).map (fun l => String.mk l)) f with
          | error e' =>
            exact ⟨e', by
              simp only [read_notes_loopR, hgt, if_true, hpd, hg, bind, Except.bind]⟩
          | ok g =>
            exact ⟨e, by
              simp only [read_notes_loopR, hgt, if_true, hpd, hg, he, bind, Except.bind]⟩

theorem read_notes_loopR_malformed (rate : ℕ) :
    ∀ (k : ℕ) (toks : List (List Char)), goodPrefix rate toks k → badPairAt toks k →
      read_notes_loopR rate toks = .error .indexError ∨
      read_notes_loopR rate toks = .error .valueError := by
  intro k
  induction k with
  | zero =>
    intro toks _ hbad
    match toks with
    | [] => exact absurd hbad.1 (by simp)
    | [t] => exact Or.inl rfl
    | t :: d :: r =>
      obtain ⟨-, hrest⟩ := hbad
      rcases hrest with hlen | ⟨dtok, hget, hparse⟩
      · exact absurd hlen (by simp only [List.length_cons]; omega)
      · have hd : d = dtok := by
          rw [show 2 * 0 + 1 = 0 + 1 from rfl, List.getElem?_cons_succ,
            List.getElem?_cons_zero] at hget
          exact Option.some_injective _ hget
        rw [← hd] at hparse
        have hpd : parseDurationTok d = .error .valueError := parseDurationTok_error hparse
        refine Or.inr ?_
        cases hgt : isGroupTok t <;>
          simp only [read_notes_loopR, hgt, Bool.false_eq_true, if_false, if_true, hpd,
            bind, Except.bind]
  | succ k ih =>
    intro toks hgood hbad
    match toks with
    | [] => exact absurd hbad.1 (by simp)
    | [t] => exact Or.inl rfl
    | t :: d :: r =>
      obtain ⟨t', d', hgt0, hgd0, hok⟩ := hgood 0 (Nat.succ_pos k)
      have ht' : t' = t := by
        rw [show 2 * 0 = 0 from rfl, List.getElem?_cons_zero] at hgt0
        exact (Option.some_injective _ hgt0).symm
      have hd' : d' = d := by
        rw [show 2 * 0 + 1 = 0 + 1 from rfl, List.getElem?_cons_succ,
          List.getElem?_cons_zero] at hgd0
        exact (Option.some_injective _ hgd0).symm
      rw [ht', hd'] at hok
      obtain ⟨f, hpf, hbranch⟩ := hok
      have ihres := ih r (goodPrefix_shift hgood) (badPairAt_shift hbad)
      cases hgt : isGroupTok t
      · rw [hgt] at hbranch
        simp only [Bool.false_eq_true, if_false] at hbranch
        obtain ⟨sw, hsw⟩ := hbranch
        rcases ihres with he | he
        · exact Or.inl (by
            simp only [read_notes_loopR, hgt, Bool.false_eq_true, if_false, hpf, hsw, he,
              bind, Except.bind])
        · exact Or.inr (by
            simp only [read_notes_loopR, hgt, Bool.false_eq_true, if_false, hpf, hsw, he,
              bind, Except.bind])
      · rw [hgt] at hbranch
        simp only [if_true] at hbranch
        obtain ⟨g, hg⟩ := hbranch
        rcases ihres with he | he
        · exact Or.inl (by
            simp only [read_notes_loopR, hgt, if_true, hpf, hg, he, bind, Except.bind])
        · exact Or.inr (by
            simp only [read_notes_loopR, hgt, if_true, hpf, hg, he, bind, Except.bind])

theorem read_notes_stringR_error_of_loop {rate : ℕ} {s : String} {e : Err}
    (h : read_notes_loopR rate (findTokens s.data) = .error e) :
    read_notes_stringR rate s = .error e := by
  unfold read_notes_stringR
  rw [h]
  rfl

/-- C9 (amended): whenever some note/chord token of the melody text lacks a
following duration token or its duration token fails to parse, the parser
raises an exception and returns no signal; if additionally every earlier
event processes cleanly, that exception is the malformed-melody error
(`IndexError` for the missing token, `ValueError` from `float()`) — but an
earlier failing event (e.g. an unknown note) raises its own error first. -/
theorem read_notes_string_malformed_spec (rate : ℕ) (s : String) (k : ℕ)
    (hbad : badPairAt (findTokens s.data) k) :
    (∃ e, read_notes_stringR rate s = .error e) ∧
    (goodPrefix rate (findTokens s.data) k →
      read_notes_stringR rate s = .error .indexError ∨
      read_notes_stringR rate s = .error .valueError) := by
  constructor
  · obtain ⟨e, he⟩ := read_notes_loopR_error_of_bad rate k (findTokens s.data) hbad
    exact ⟨e, read_notes_stringR_error_of_loop he⟩
  · intro hgood
    rcases read_notes_loopR_malformed rate k (findTokens s.data) hgood hbad with he | he
    · exact Or.inl (read_notes_stringR_error_of_loop he)
    · exact Or.inr (read_notes_stringR_error_of_loop he)

/-- C9 witness: `"a4 0.4s e4"` has a trailing note token with no duration
token (event position 1), so the parser errors. -/
theorem read_notes_string_malformed_spec_witness :
    (∃ e, read_notes_stringR SAMPLING_RATE "a4 0.4s e4" = .error e) ∧
    (goodPrefix SAMPLING_RATE (findTokens ("a4 0.4s e4").data) 1 →
      read_notes_stringR SAMPLING_RATE "a4 0.4s e4" = .error .indexError ∨
      read_notes_stringR SAMPLING_RATE "a4 0.4s e4" = .error .valueError) :=
  read_notes_string_malformed_spec SAMPLING_RATE "a4 0.4s e4" 1
    ⟨by decide, Or.inl (by decide)⟩

/-- C9 counterexample: the text `"zz 0.1s a4 bad"` contains a duration
token (`"bad"`) that does not parse, yet the parser raises the
unknown-note `KeyError` for the earlier `"zz"` — not the malformed-melody
error the claim promises for every such text. -/
theorem read_notes_string_unknown_note_first :
    badPairAt (findTokens ("zz 0.1s a4 bad").data) 1 ∧
    read_notes_string "zz 0.1s a4 bad" = .error (.keyError "zz") ∧
    Err.keyError "zz" ≠ Err.valueError ∧ Err.keyError "zz" ≠ Err.indexError := by
  refine ⟨⟨by decide, Or.inr ⟨['b', 'a', 'd'], by decide, by decide⟩⟩, ?_, by decide, by decide⟩
  have htok : findTokens ("zz 0.1s a4 bad").data =
      [['z', 'z'], ['0', '.', '1', 's'], ['a', '4'], ['b', 'a', 'd']] := by decide
  have hgz : isGroupTok ['z', 'z'] = false := by decide
  have hpd : parseDurationTok ['0', '.', '1', 's'] = .ok (.finite (mkRat 1 10)) := rfl
  have hnn : ¬ pyIntTimes SAMPLING_RATE (mkRat 1 10) < 0 := by decide
  have hlz : lookupNote (String.mk ['z', 'z']) = .error (.keyError "zz") := rfl
  have hcz : create_sound_waveR SAMPLING_RATE (String.mk ['z', 'z'])
      (some (.finite (mkRat 1 10))) = .error (.keyError "zz") := by
    simp only [create_sound_waveR, set_custom_common_timelineF, if_neg hnn, hlz,
      get_soundwave, bind, Except.bind, pure, Except.pure]
  have hloop : read_notes_loopR SAMPLING_RATE
      [['z', 'z'], ['0', '.', '1', 's'], ['a', '4'], ['b', 'a', 'd']] =
      .error (.keyError "zz") := by
    simp only [read_notes_loopR, hgz, Bool.false_eq_true, if_false, hpd, hcz,
      bind, Except.bind]
  show read_notes_stringR SAMPLING_RATE "zz 0.1s a4 bad" = .error (.keyError "zz")
  unfold read_notes_stringR
  rw [htok, hloop]
  rfl

theorem zipWith_add_replicate_zero (l : List ℝ) :
    List.zipWith (· + ·) (List.replicate l.length (0 : ℝ)) l = l := by
  induction l with
  | nil => rfl
  | cons x t ih =>
    rw [List.length_cons, List.replicate_succ, List.zipWith_cons_cons, zero_add, ih]

theorem mem_zipWith_add {as bs : List ℝ} {x : ℝ}
    (h : x ∈ List.zipWith (· + ·) as bs) : ∃ a ∈ as, ∃ b ∈ bs, x = a + b := by
  induction as generalizing bs with
  | nil => cases h
  | cons a as ih =>
    cases bs with
    | nil => cases h
    | cons b bs =>
      rw [List.zipWith_cons_cons] at h
      rcases List.mem_cons.1 h with rfl | hmem
      · exact ⟨a, List.mem_cons_self _ _, b, List.mem_cons_self _ _, rfl⟩
      · obtain ⟨a', ha, b', hb, rfl⟩ := ih hmem
        exact ⟨a', List.mem_cons_of_mem _ ha, b', List.mem_cons_of_mem _ hb, rfl⟩

/-- Any successful `create_sound_wave` call returns the note's label with a
`get_normed_sin` signal for the looked-up frequency over some timeline. -/
theorem create_sound_waveR_ok_shape {rate : ℕ} {note : String} {dur : Option PyFloat}
    {sw : SoundWave} (h : create_sound_waveR rate note dur = .ok sw) :
    ∃ tl f, lookupNote note = .ok f ∧ sw = ⟨note, get_normed_sin tl f⟩ := by
  rcases dur with - | d <;> unfold create_sound_waveR at h <;> dsimp only at h
  · cases hl : lookupNote note with
    | error e =>
      rw [hl] at h
      simp only [get_soundwave, hl, bind, Except.bind, pure, Except.pure] at h
      exact Except.noConfusion h
    | ok f =>
      rw [hl] at h
      simp only [get_soundwave, hl, bind, Except.bind, pure, Except.pure,
        Except.ok.injEq] at h
      exact ⟨common_timeline, f, rfl, h.symm⟩
  · cases htl : set_custom_common_timelineF rate d with
    | error e =>
      rw [htl] at h
      simp only [bind, Except.bind] at h
      exact Except.noConfusion h
    | ok tl =>
      rw [htl] at h
      cases hl : lookupNote note with
      | error e =>
        rw [hl] at h
        simp only [get_soundwave, hl, bind, Except.bind, pure, Except.pure] at h
        exact Except.noConfusion h
      | ok f =>
        rw [hl] at h
        simp only [get_soundwave, hl, bind, Except.bind, pure, Except.pure,
          Except.ok.injEq] at h
        exact ⟨tl, f, rfl, h.symm⟩

/-- Samples of the loop `group_wave += note_wave` stay bounded by the bound
on the accumulator plus `MAX_AMPLITUDE` per accumulated note. -/
theorem group_fold_bound (rate : ℕ) (q : ℚ) (notes : List String) :
    ∀ (acc : List ℝ) (C : ℝ), (∀ x ∈ acc, |x| ≤ C) →
    ∀ w : List ℝ,
      notes.foldlM
        (fun acc note => do
          let sw ← create_sound_waveR rate note (some (.finite q))
          pure (List.zipWith (· + ·) acc sw.sound_wave)) acc = .ok w →
      ∀ x ∈ w, |x| ≤ C + (notes.length : ℝ) * (MAX_AMPLITUDE : ℝ) := by
  induction notes with
  | nil =>
    intro acc C hacc w h x hx
    simp only [List.foldlM_nil, pure, Except.pure, Except.ok.injEq] at h
    subst h
    simpa using hacc x hx
  | cons note rest ih =>
    intro acc C hacc w h x hx
    rw [List.foldlM_cons] at h
    cases hsw : create_sound_waveR rate note (some (.finite q)) with
    | error e =>
      rw [hsw] at h
      simp only [bind, Except.bind] at h
      exact Except.noConfusion h
    | ok sw =>
      rw [hsw] at h
      simp only [bind, Except.bind] at h
      obtain ⟨tl, f, -, hshape⟩ := create_sound_waveR_ok_shape hsw
      have hstep : ∀ y ∈ List.zipWith (· + ·) acc sw.sound_wave,
          |y| ≤ C + (MAX_AMPLITUDE : ℝ) := by
        intro y hy
        obtain ⟨a, ha, b, hb, rfl⟩ := mem_zipWith_add hy
        have hbb : |b| ≤ (MAX_AMPLITUDE : ℝ) := by
          rw [hshape] at hb
          simp only [get_normed_sin, List.mem_map] at hb
          obtain ⟨t, -, rfl⟩ := hb
          rw [abs_mul]
          calc |(MAX_AMPLITUDE : ℝ)| * |Real.sin (2 * Real.pi * (f : ℝ) * (t : ℝ))| ≤
              |(MAX_AMPLITUDE : ℝ)| * 1 :=
                mul_le_mul_of_nonneg_left (Real.abs_sin_le_one _) (abs_nonneg _)
            _ = (MAX_AMPLITUDE : ℝ) := by
                rw [mul_one, abs_of_nonneg (by norm_num [MAX_AMPLITUDE])]
        calc |a + b| ≤ |a| + |b| := abs_add a b
          _ ≤ C + (MAX_AMPLITUDE : ℝ) := add_le_add (hacc a ha) hbb
      have := ih (List.zipWith (· + ·) acc sw.sound_wave) (C + (MAX_AMPLITUDE : ℝ))
        hstep w h x hx
      calc |x| ≤ C + (MAX_AMPLITUDE : ℝ) + (rest.length : ℝ) * (MAX_AMPLITUDE : ℝ) := this
        _ = C + ((note :: rest).length : ℝ) * (MAX_AMPLITUDE : ℝ) := by
            rw [List.length_cons]
            push_cast
            ring

/-- C2 (amended): a single synthesized note is amplitude-bounded by
`MAX_AMPLITUDE`, but a chord group wave is only bounded by the number of
notes in the group times `MAX_AMPLITUDE` — the group loop sums the
already-full-scale note waves without rescaling. -/
theorem core_amplitude_bounds :
    (∀ tl : List ℚ, ∀ f : ℚ, ∀ x ∈ get_normed_sin tl f, |x| ≤ (MAX_AMPLITUDE : ℝ)) ∧
    (∀ rate : ℕ, ∀ notes : List String, ∀ d : PyFloat, ∀ w : List ℝ,
      generate_group_waveR rate notes d = .ok w →
      ∀ x ∈ w, |x| ≤ (notes.length : ℝ) * (MAX_AMPLITUDE : ℝ)) := by
  constructor
  · intro tl f x hx
    simp only [get_normed_sin, List.mem_map] at hx
    obtain ⟨t, -, rfl⟩ := hx
    rw [abs_mul]
    calc |(MAX_AMPLITUDE : ℝ)| * |Real.sin (2 * Real.pi * (f : ℝ) * (t : ℝ))| ≤
        |(MAX_AMPLITUDE : ℝ)| * 1 :=
          mul_le_mul_of_nonneg_left (Real.abs_sin_le_one _) (abs_nonneg _)
      _ = (MAX_AMPLITUDE : ℝ) := by
          rw [mul_one, abs_of_nonneg (by norm_num [MAX_AMPLITUDE])]
  · intro rate notes d w h x hx
    rcases d with q | b
    case nan => exact Except.noConfusion h
    case inf => exact Except.noConfusion h
    case finite =>
      rw [generate_group_waveR] at h
      by_cases hneg : pyIntTimes rate q < 0
      · rw [if_pos hneg] at h
        exact Except.noConfusion h
      · rw [if_neg hneg] at h
        have hacc : ∀ y ∈ List.replicate (pyIntTimes rate q).toNat (0 : ℝ), |y| ≤ (0 : ℝ) := by
          intro y hy
          rw [List.eq_of_mem_replicate hy, abs_zero]
        have := group_fold_bound rate q notes _ 0 hacc w h x hx
        simpa using this

/-- C2 amendment witness: the single-note bound applied to the one-sample
timeline `[0]` at 440 Hz, whose only sample is 0. -/
theorem core_amplitude_bounds_witness : |(0 : ℝ)| ≤ (MAX_AMPLITUDE : ℝ) :=
  core_amplitude_bounds.1 [0] 440 0 (by simp [get_normed_sin])

/-- C2 counterexample: the melody `"(a4 a4) 0.001s"` — a chord group —
produces a signal whose sample 25 equals `2 * MAX_AMPLITUDE * sin(pi/2) =
16384 > 2^13`: the group loop sums full-scale note waves without
rescaling, so the signal handed to the persistence collaborator exceeds
the configured maximum amplitude. -/
theorem chord_group_exceeds_max_amplitude :
    ∃ w, read_notes_string "(a4 a4) 0.001s" = .ok w ∧
      ∃ x ∈ w, (MAX_AMPLITUDE : ℝ) < x := by
  have hq : (mkRat 1 1000 : ℚ) = 1 / 1000 := by
    rw [Rat.mkRat_eq_divInt, Rat.divInt_eq_div]
    norm_num
  have htok : findTokens ("(a4 a4) 0.001s").data =
      [['(', 'a', '4', ' ', 'a', '4', ')'], ['0', '.', '0', '0', '1', 's']] := by decide
  have hgrp : isGroupTok ['(', 'a', '4', ' ', 'a', '4', ')'] = true := by decide
  have hpd : parseDurationTok ['0', '.', '0', '0', '1', 's'] =
      .ok (.finite (mkRat 1 1000)) := rfl
  have hsplit : (pySplit ((['(', 'a', '4', ' ', 'a', '4', ')'] : List Char).dropLast.drop 1)).map
      (fun l => String.mk l) = ["a4", "a4"] := by decide
  have hN : (pyIntTimes SAMPLING_RATE (mkRat 1 1000)).toNat = 44 := by decide
  have hnn : ¬ pyIntTimes SAMPLING_RATE (mkRat 1 1000) < 0 := by decide
  have hcreate : create_sound_waveR SAMPLING_RATE "a4" (some (.finite (mkRat 1 1000))) =
      .ok ⟨"a4", get_normed_sin
        (set_custom_common_timelineR SAMPLING_RATE (mkRat 1 1000)) 440⟩ := by
    simp only [create_sound_waveR, set_custom_common_timelineF, if_neg hnn,
      get_soundwave, lookupNote_a4, bind, Except.bind, pure, Except.pure]
  have hWlen : (get_normed_sin
      (set_custom_common_timelineR SAMPLING_RATE (mkRat 1 1000)) 440).length = 44 := by
    rw [get_normed_sin, List.length_map, set_custom_common_timelineR, linspaceEF_length, hN]
  have hW1 : List.zipWith (· + ·) (List.replicate 44 (0 : ℝ))
      (get_normed_sin (set_custom_common_timelineR SAMPLING_RATE (mkRat 1 1000)) 440) =
      get_normed_sin (set_custom_common_timelineR SAMPLING_RATE (mkRat 1 1000)) 440 := by
    rw [← hWlen, zipWith_add_replicate_zero]
  have hgen : generate_group_waveR SAMPLING_RATE ["a4", "a4"] (.finite (mkRat 1 1000)) =
      .ok (List.zipWith (· + ·)
        (get_normed_sin (set_custom_common_timelineR SAMPLING_RATE (mkRat 1 1000)) 440)
        (get_normed_sin (set_custom_common_timelineR SAMPLING_RATE (mkRat 1 1000)) 440)) := by
    rw [generate_group_waveR, if_neg hnn, hN]
    simp only [List.foldlM_cons, List.foldlM_nil, hcreate, bind, Except.bind,
      pure, Except.pure, hW1]
  have hloop : read_notes_loopR SAMPLING_RATE
      [['(', 'a', '4', ' ', 'a', '4', ')'], ['0', '.', '0', '0', '1', 's']] =
      .ok [List.zipWith (· + ·)
        (get_normed_sin (set_custom_common_timelineR SAMPLING_RATE (mkRat 1 1000)) 440)
        (get_normed_sin (set_custom_common_timelineR SAMPLING_RATE (mkRat 1 1000)) 440)] := by
    simp only [read_notes_loopR, hgrp, if_true, hpd, hsplit, hgen, bind, Except.bind,
      pure, Except.pure]
  have hread : read_notes_string "(a4 a4) 0.001s" =
      .ok (List.zipWith (· + ·)
        (get_normed_sin (set_custom_common_timelineR SAMPLING_RATE (mkRat 1 1000)) 440)
        (get_normed_sin (set_custom_common_timelineR SAMPLING_RATE (mkRat 1 1000)) 440)) := by
    unfold read_notes_string read_notes_stringR
    rw [htok, hloop]
    simp only [bind, Except.bind, pure, Except.pure, List.flatten_cons, List.flatten_nil,
      List.append_nil]
  refine ⟨_, hread, ?_⟩
  have ht25 : (set_custom_common_timelineR SAMPLING_RATE (mkRat 1 1000))[25]? =
      some ((25 : ℚ) * ((mkRat 1 1000) / ((44 : ℕ) : ℚ))) := by
    rw [set_custom_common_timelineR, hN, linspaceEF_getElem? _ (by norm_num)]
    norm_cast
  have htval : ((25 : ℚ) * ((mkRat 1 1000) / ((44 : ℕ) : ℚ))) = 1 / 1760 := by
    rw [hq]
    norm_num
  have hW25 : (get_normed_sin
      (set_custom_common_timelineR SAMPLING_RATE (mkRat 1 1000)) 440)[25]? =
      some ((MAX_AMPLITUDE : ℝ)) := by
    rw [get_normed_sin, List.getElem?_map, ht25, htval, Option.map_some']
    have hangle : 2 * Real.pi * ((440 : ℚ) : ℝ) * ((1 / 1760 : ℚ) : ℝ) = Real.pi / 2 := by
      push_cast
      ring
    rw [hangle, Real.sin_pi_div_two, mul_one]
  have hsum : (List.zipWith (· + ·)
      (get_normed_sin (set_custom_common_timelineR SAMPLING_RATE (mkRat 1 1000)) 440)
      (get_normed_sin (set_custom_common_timelineR SAMPLING_RATE (mkRat 1 1000)) 440))[25]? =
      some ((MAX_AMPLITUDE : ℝ) + (MAX_AMPLITUDE : ℝ)) := by
    rw [List.getElem?_zipWith, hW25]
  refine ⟨(MAX_AMPLITUDE : ℝ) + (MAX_AMPLITUDE : ℝ), List.getElem?_mem hsum, ?_⟩
  norm_num [MAX_AMPLITUDE]

theorem writeSeq_length (vs : List ℚ) : ∀ (l : List ℚ) (s : ℕ),
    (writeSeq l s vs).length = l.length := by
  induction vs with
  | nil => intro l s; rfl
  | cons v vs ih =>
    intro l s
    rw [writeSeq, ih, List.length_set]

theorem writeSeq_getElem?_outside (vs : List ℚ) : ∀ (l : List ℚ) (s i : ℕ),
    (i < s ∨ s + vs.length ≤ i) → (writeSeq l s vs)[i]? = l[i]? := by
  induction vs with
  | nil => intro l s i _; rfl
  | cons v vs ih =>
    intro l s i hout
    have hrec : i < s + 1 ∨ (s + 1) + vs.length ≤ i := by
      rcases hout with h | h
      · exact Or.inl (by omega)
      · right
        simp only [List.length_cons] at h
        omega
    have hne : s ≠ i := by
      rcases hout with h | h
      · omega
      · simp only [List.length_cons] at h
        omega
    rw [writeSeq, ih (l.set s v) (s + 1) i hrec, List.getElem?_set_ne hne]

theorem setRange_getElem?_outside :
    ∀ (l : List ℚ) (a b : ℕ) (v : ℚ) (i : ℕ), (i < a ∨ b ≤ i) →
      (setRange l a b v)[i]? = l[i]? := by
  intro l
  induction l with
  | nil => intro a b v i _; rfl
  | cons x xs ih =>
    intro a b v i hout
    match a, b with
    | 0, 0 => rfl
    | 0, b + 1 =>
      obtain ⟨j, rfl⟩ : ∃ j, i = j + 1 :=
        ⟨i - 1, by rcases hout with h | h <;> omega⟩
      simp only [setRange, List.getElem?_cons_succ]
      exact ih 0 b v j (Or.inr (by rcases hout with h | h <;> omega))
    | a + 1, b =>
      match i with
      | 0 => simp only [setRange, List.getElem?_cons_zero]
      | j + 1 =>
        simp only [setRange, List.getElem?_cons_succ]
        refine ih a (b - 1) v j ?_
        rcases hout with h | h
        · exact Or.inl (by omega)
        · exact Or.inr (by omega)

theorem setRange_length : ∀ (l : List ℚ) (a b : ℕ) (v : ℚ),
    (setRange l a b v).length = l.length := by
  intro l
  induction l with
  | nil => intro a b v; rfl
  | cons x xs ih =>
    intro a b v
    match a, b with
    | 0, 0 => rfl
    | 0, b + 1 => simp only [setRange, List.length_cons, ih]
    | a + 1, b => simp only [setRange, List.length_cons, ih]

/-- Evaluation of the envelope pipeline when the three loops stay in
bounds: the result is the zero array overwritten by the attack ramp, the
decay ramp, the sustain slice and the release ramp, in source order. -/
theorem adsr_envelope_ok (n A D R : ℕ) (S : ℤ) (a d s r : ℚ)
    (hA : (pyInt (a * (SAMPLING_RATE : ℚ))).toNat = A)
    (hD : (pyInt (d * (SAMPLING_RATE : ℚ))).toNat = D)
    (hS : pyInt ((n : ℚ) / (SAMPLING_RATE : ℚ) - (a + d + r)) = S)
    (hR : (pyInt (r * (SAMPLING_RATE : ℚ))).toNat = R)
    (hAn : A ≤ n) (hDn : A + D ≤ n) (hRn : ((A + D : ℤ) + S).toNat + R ≤ n)
    (hA0 : A ≠ 0) (hD0 : D ≠ 0) (hR0 : R ≠ 0) :
    adsr_envelope n a d s r =
      .ok (writeSeq (setRange (writeSeq (writeSeq (List.replicate n 0) 0
        ((List.range A).map (fun i : ℕ => (i : ℚ) / (A : ℚ)))) A
        ((List.range D).map (fun i : ℕ => 1 - ((i : ℚ) / (D : ℚ)) * (1 - s))))
        (A + D) ((A + D : ℤ) + S).toNat s) ((A + D : ℤ) + S).toNat
        ((List.range R).map (fun i : ℕ => s * (1 - (i : ℚ) / (R : ℚ))))) := by
  have hne : ∀ (m : ℕ) (f : ℕ → ℚ), m ≠ 0 → (List.range m).map f ≠ [] := by
    intro m f hm hc
    apply hm
    have := congrArg List.length hc
    simpa using this
  have h1 : loopAssign (List.replicate n 0) 0
      ((List.range A).map (fun i : ℕ => (i : ℚ) / (A : ℚ))) =
      .ok (writeSeq (List.replicate n 0) 0
        ((List.range A).map (fun i : ℕ => (i : ℚ) / (A : ℚ)))) := by
    unfold loopAssign
    rw [if_neg (hne A _ hA0), if_pos (by
      simp only [List.length_map, List.length_range, List.length_replicate]
      omega)]
  have h2 : loopAssign (writeSeq (List.replicate n 0) 0
      ((List.range A).map (fun i : ℕ => (i : ℚ) / (A : ℚ)))) A
      ((List.range D).map (fun i : ℕ => 1 - ((i : ℚ) / (D : ℚ)) * (1 - s))) =
      .ok (writeSeq (writeSeq (List.replicate n 0) 0
        ((List.range A).map (fun i : ℕ => (i : ℚ) / (A : ℚ)))) A
        ((List.range D).map (fun i : ℕ => 1 - ((i : ℚ) / (D : ℚ)) * (1 - s)))) := by
    unfold loopAssign
    rw [if_neg (hne D _ hD0), if_pos (by
      simp only [List.length_map, List.length_range, writeSeq_length, List.length_replicate]
      omega)]
  have h4 : loopAssign (setRange (writeSeq (writeSeq (List.replicate n 0) 0
      ((List.range A).map (fun i : ℕ => (i : ℚ) / (A : ℚ)))) A
      ((List.range D).map (fun i : ℕ => 1 - ((i : ℚ) / (D : ℚ)) * (1 - s))))
      (A + D) ((A + D : ℤ) + S).toNat s) ((A + D : ℤ) + S).toNat
      ((List.range R).map (fun i : ℕ => s * (1 - (i : ℚ) / (R : ℚ)))) =
      .ok (writeSeq (setRange (writeSeq (writeSeq (List.replicate n 0) 0
        ((List.range A).map (fun i : ℕ => (i : ℚ) / (A : ℚ)))) A
        ((List.range D).map (fun i : ℕ => 1 - ((i : ℚ) / (D : ℚ)) * (1 - s))))
        (A + D) ((A + D : ℤ) + S).toNat s) ((A + D : ℤ) + S).toNat
        ((List.range R).map (fun i : ℕ => s * (1 - (i : ℚ) / (R : ℚ))))) := by
    unfold loopAssign
    rw [if_neg (hne R _ hR0), if_pos (by
      simp only [List.length_map, List.length_range, setRange_length, writeSeq_length,
        List.length_replicate]
      omega)]
  unfold adsr_envelope
  rw [hA, hD, hS, hR]
  dsimp only
  rw [h1]
  simp only [bind, Except.bind]
  rw [h2]
  simp only [bind, Except.bind]
  rw [h4]
  simp only [bind, Except.bind, pure, Except.pure]

/-- C1: the ADSR envelope bug.  For the standard 5-second wave (220500
samples) with attack = decay = release = 0.1 s and sustain level 1/2 —
parameters satisfying attack+decay+release ≤ duration — the claim puts the
gain at sustain_level = 1/2 on every sample index in [8820, 216090), but
line 163 computes `sustain_samples` in SECONDS (`int(5 - 0.3) = 4`
samples) instead of samples, so beyond index 8824 + 4410 the envelope is
the untouched zero fill: the gain at the sustain midpoint index 112455 is
0, not 1/2. -/
theorem adsr_sustain_gap :
    ∃ env, adsr_envelope 220500 (1 / 10) (1 / 10) (1 / 2) (1 / 10) = .ok env ∧
      env[112455]? = some 0 ∧
      8820 ≤ 112455 ∧ 112455 < 216090 ∧ (0 : ℚ) ≠ 1 / 2 := by
  have hAD : (pyInt ((1 / 10 : ℚ) * (SAMPLING_RATE : ℚ))).toNat = 4410 := by
    have h1 : ((1 / 10 : ℚ) * (SAMPLING_RATE : ℚ)) = 4410 := by
      norm_num [SAMPLING_RATE]
    have h2 : ⌊(4410 : ℚ)⌋ = 4410 := by norm_num
    rw [h1, pyInt_eq_floor (by norm_num), h2]
    rfl
  have hS : pyInt (((220500 : ℕ) : ℚ) / (SAMPLING_RATE : ℚ) -
      ((1 / 10 : ℚ) + 1 / 10 + 1 / 10)) = 4 := by
    have h1 : (((220500 : ℕ) : ℚ) / (SAMPLING_RATE : ℚ) -
        ((1 / 10 : ℚ) + 1 / 10 + 1 / 10)) = 47 / 10 := by
      norm_num [SAMPLING_RATE]
    have h2 : ⌊(47 / 10 : ℚ)⌋ = 4 := by norm_num
    rw [h1, pyInt_eq_floor (by norm_num), h2]
  have henv := adsr_envelope_ok 220500 4410 4410 4410 4 (1 / 10) (1 / 10) (1 / 2) (1 / 10)
    hAD hAD hS hAD (by norm_num) (by norm_num) (by omega) (by norm_num) (by norm_num)
    (by norm_num)
  refine ⟨_, henv, ?_, by norm_num, by norm_num, by norm_num⟩
  rw [writeSeq_getElem?_outside _ _ _ _ (Or.inr (by
      simp only [List.length_map, List.length_range]
      omega)),
    setRange_getElem?_outside _ _ _ _ _ (Or.inr (by omega)),
    writeSeq_getElem?_outside _ _ _ _ (Or.inr (by
      simp only [List.length_map, List.length_range]
      omega)),
    writeSeq_getElem?_outside _ _ _ _ (Or.inr (by
      simp only [List.length_map, List.length_range]
      omega)),
    List.getElem?_replicate]
  norm_num

end SoundFactory
